import Mathlib

/-!
Shallow embedding of `ec2.py`: an instance cache plus a Django-style
filter over instance attributes and tags.  Python strings are Lean
`String`s, instances are records of attribute and tag association lists,
exceptions are modelled with `Except`, and the class-level cache is
modelled by explicit state passing.  The subset of Python's `re` module
exercised by the `like` family (literal characters, `.`, postfix `*`,
a leading `^` anchor, and the `re.I` flag) is embedded as a small
executable matcher with match-at-position-0 semantics, mirroring
`pattern.match(s)`.
-/

namespace Ec2

/-- Embedding of Python's `str.lower()` (ASCII case mapping, as in
`Char.toLower`). -/
def strLower (s : String) : String := ⟨s.data.map Char.toLower⟩

/-- An instance record: named attributes (read by `getattr`) and a tag
mapping, both as association lists of strings. -/
structure Instance where
  attrs : List (String × String)
  tags : List (String × String)
  deriving DecidableEq, Repr

/-- Errors surfaced by the filter machinery.  `AttributeNotFoundError` is
the `AttributeError` re-raised when neither a direct attribute nor a
matching tag exists (it names the attribute and the instance);
`UnknownComparatorError` is the `AttributeError` raised by `_comp` for an
unrecognized comparator name. -/
inductive Ec2Error where
  | AttributeNotFoundError (attr : String) (inst : Instance)
  | UnknownComparatorError (comp : String)
  deriving DecidableEq, Repr

/-- Embedding of `getattr(instance, key)`: `some` value on success,
`none` when the lookup would raise `AttributeError`. -/
def getattr (i : Instance) (key : String) : Option String :=
  (i.attrs.find? (fun a => a.1 == key)).map (fun a => a.2)

/-- Embedding of the tag-fallback loop
`for tag in instance.tags: if key == tag.lower(): return ... instance.tags[tag]`:
the value of the first tag whose lower-cased key equals `key`. -/
def findTag (key : String) (tags : List (String × String)) : Option String :=
  (tags.find? (fun t => key == strLower t.1)).map (fun t => t.2)

/-- A single regex token: a literal character or `.` (any character). -/
inductive Tok where
  | lit (c : Char)
  | dot
  deriving DecidableEq, Repr

/-- A regex element: a single token or a starred token. -/
inductive Elem where
  | one (t : Tok)
  | star (t : Tok)
  deriving DecidableEq, Repr

/-- Whether token `t` matches character `c`; `nc` is the `re.I`
(case-insensitive) flag. -/
def tokMatch (nc : Bool) (t : Tok) (c : Char) : Bool :=
  match t with
  | .dot => true
  | .lit a => if nc then a.toLower == c.toLower else a == c

/-- Anchored matcher: does the element list match some prefix of the
character list, starting at position 0 (the semantics of Python's
`pattern.match`)? -/
def matchHere (nc : Bool) : List Elem → List Char → Bool
  | [], _ => true
  | .one _ :: _, [] => false
  | .one t :: ps, c :: s => tokMatch nc t c && matchHere nc ps s
  | .star _ :: ps, [] => matchHere nc ps []
  | .star t :: ps, c :: s =>
      matchHere nc ps (c :: s) || (tokMatch nc t c && matchHere nc (.star t :: ps) s)
termination_by ps s => (s.length, ps.length)

/-- A compiled pattern: element list plus the case-insensitivity flag. -/
structure Pattern where
  elems : List Elem
  nocase : Bool
  deriving DecidableEq, Repr

/-- Map a source character to a token (`.` becomes the wildcard). -/
def tokOf (c : Char) : Tok := if c == '.' then .dot else .lit c

/-- Compile a character list into regex elements, reading a `*` as a
postfix star on the preceding token. -/
def compileElems : List Char → List Elem
  | [] => []
  | c :: '*' :: rest => .star (tokOf c) :: compileElems rest
  | c :: rest => .one (tokOf c) :: compileElems rest

/-- Drop a leading `^` anchor; under match-at-position-0 semantics it is
a no-op. -/
def stripCaret : List Char → List Char
  | '^' :: rest => rest
  | l => l

/-- Embedding of `re.compile(value)`. -/
def reCompile (s : String) : Pattern := ⟨compileElems (stripCaret s.data), false⟩

/-- Embedding of `re.compile(value, re.I)`. -/
def reCompileI (s : String) : Pattern := ⟨compileElems (stripCaret s.data), true⟩

/-- Embedding of `bool(pattern.match(s))`. -/
def reMatch (p : Pattern) (s : String) : Bool := matchHere p.nocase p.elems s.data

/-- The argument accepted by `like`: either a string to be compiled or an
already-compiled pattern (`isinstance(value, basestring)` dispatch). -/
inductive ReArg where
  | str (s : String)
  | pat (p : Pattern)
  deriving DecidableEq, Repr

/-- Embedding of Python's `needle in hay` substring test. -/
def strIn (needle hay : String) : Bool := decide (needle.data <:+: hay.data)

/-- Embedding of `hay.startswith(pre)`. -/
def strStarts (hay pre : String) : Bool := pre.data.isPrefixOf hay.data

/-- Embedding of `hay.endswith(suf)`. -/
def strEnds (hay suf : String) : Bool := suf.data.isSuffixOf hay.data

/-- The control-flow skeleton every comparator in `_Compare` repeats:
try the direct attribute (apply `dir` to its value); on `AttributeError`
fall back to the first tag whose lower-cased key equals `key` (apply
`tagf` to the tag value); if neither exists, re-raise the
`AttributeError`. -/
def twoTier (dir tagf : String → Bool) (key : String) (i : Instance) :
    Except Ec2Error Bool :=
  match getattr i key with
  | some a => .ok (dir a)
  | none =>
    match findTag key i.tags with
    | some w => .ok (tagf w)
    | none => .error (.AttributeNotFoundError key i)

namespace _Compare

/-- `exact`: strict equality. -/
def exact (key value : String) (i : Instance) : Except Ec2Error Bool :=
  twoTier (fun a => a == value) (fun w => w == value) key i

/-- `iexact`: `value = value.lower()` first; both paths lower the
looked-up value. -/
def iexact (key value : String) (i : Instance) : Except Ec2Error Bool :=
  twoTier (fun a => strLower a == strLower value) (fun w => strLower w == strLower value) key i

/-- `like`: a string argument is compiled with `re.compile`, a pattern is
used as-is; both paths test `bool(value.match(...))`. -/
def like (key : String) (value : ReArg) (i : Instance) : Except Ec2Error Bool :=
  let p := match value with
    | .str s => reCompile s
    | .pat q => q
  twoTier (fun a => reMatch p a) (fun w => reMatch p w) key i

/-- `regex = like` (Django alias). -/
def regex := like

/-- `ilike`: delegates to `like` with the pattern compiled under `re.I`. -/
def ilike (key value : String) (i : Instance) : Except Ec2Error Bool :=
  like key (.pat (reCompileI value)) i

/-- `iregex = ilike` (Django alias). -/
def iregex := ilike

/-- `contains`: `value in <looked-up value>`. -/
def contains (key value : String) (i : Instance) : Except Ec2Error Bool :=
  twoTier (fun a => strIn value a) (fun w => strIn value w) key i

/-- `icontains`: `value = value.lower()` first; the direct path lowers
the attribute value, the tag path tests against the raw tag value. -/
def icontains (key value : String) (i : Instance) : Except Ec2Error Bool :=
  twoTier (fun a => strIn (strLower value) (strLower a)) (fun w => strIn (strLower value) w) key i

/-- `startswith`. -/
def startswith (key value : String) (i : Instance) : Except Ec2Error Bool :=
  twoTier (fun a => strStarts a value) (fun w => strStarts w value) key i

/-- `istartswith`: `value = value.lower()` first; the direct path does
not lower the attribute value, the tag path lowers the tag value. -/
def istartswith (key value : String) (i : Instance) : Except Ec2Error Bool :=
  twoTier (fun a => strStarts a (strLower value)) (fun w => strStarts (strLower w) (strLower value)) key i

/-- `endswith`. -/
def endswith (key value : String) (i : Instance) : Except Ec2Error Bool :=
  twoTier (fun a => strEnds a value) (fun w => strEnds w value) key i

/-- `iendswith`: `value = value.lower()` first; the direct path does not
lower the attribute value, the tag path lowers the tag value. -/
def iendswith (key value : String) (i : Instance) : Except Ec2Error Bool :=
  twoTier (fun a => strEnds a (strLower value)) (fun w => strEnds (strLower w) (strLower value)) key i

/-- Embedding of `hasattr(_Compare, comp)` / `getattr(_Compare, comp)`:
the fixed name-to-comparator table.  String-valued criteria feed `like`
and `regex` through the string branch of `ReArg`. -/
def lookup : String → Option (String → String → Instance → Except Ec2Error Bool)
  | "exact" => some exact
  | "iexact" => some iexact
  | "like" => some (fun k v i => like k (.str v) i)
  | "regex" => some (fun k v i => regex k (.str v) i)
  | "ilike" => some ilike
  | "iregex" => some iregex
  | "contains" => some contains
  | "icontains" => some icontains
  | "startswith" => some startswith
  | "istartswith" => some istartswith
  | "endswith" => some endswith
  | "iendswith" => some iendswith
  | _ => none

end _Compare

/-- Split a character list at the last occurrence of a double
underscore: `some (before, after)`, or `none` when `__` does not occur.
Embeds `key.rsplit('__', 1)` together with the `'__' in key` test. -/
def rsplit2 : List Char → Option (List Char × List Char)
  | [] => none
  | c :: rest =>
    match rsplit2 rest with
    | some (a, b) => some (c :: a, b)
    | none => if c = '_' ∧ rest.head? = some '_' then some ([], rest.tail) else none

/-- Embedding of the key parsing in `_comp` (lines 111-115): split on the
last `__`; without `__` the comparator defaults to `exact`. -/
def parseKey (key : String) : String × String :=
  match rsplit2 key.data with
  | none => (key, "exact")
  | some (a, b) => (⟨a⟩, ⟨b⟩)

/-- Embedding of `_comp(key, value, instance)`: parse the key, dispatch
on the comparator name, raise for an unrecognized comparator. -/
def _comp (key value : String) (i : Instance) : Except Ec2Error Bool :=
  match _Compare.lookup (parseKey key).2 with
  | some f => f (parseKey key).1 value i
  | none => .error (.UnknownComparatorError (parseKey key).2)

/-- The boolean a criterion's predicate evaluates to when it succeeds
(`false` stands in for the error case, which `pyFilter` propagates
instead). -/
def predHolds (key value : String) (i : Instance) : Bool :=
  match _comp key value i with
  | .ok b => b
  | .error _ => false

/-- Embedding of Python 2's eager
`filter(lambda i: _comp(key, kwargs[key], i), instances)`: keeps the
elements whose predicate is true, propagating the first raised error. -/
def pyFilter (key value : String) : List Instance → Except Ec2Error (List Instance)
  | [] => .ok []
  | i :: rest => do
    let b ← _comp key value i
    let r ← pyFilter key value rest
    pure (if b then i :: r else r)

/-- Embedding of the loop
`for key in kwargs: instances = filter(..., instances)` in
`instances.filter`, over an explicit criteria list. -/
def filterLoop (criteria : List (String × String)) (l : List Instance) :
    Except Ec2Error (List Instance) :=
  match criteria with
  | [] => .ok l
  | (k, v) :: rest => do
    let l2 ← pyFilter k v l
    filterLoop rest l2

/-- A reservation as returned by `conn.get_all_instances()`. -/
structure Reservation where
  instances : List Instance
  deriving DecidableEq, Repr

namespace instances

/-- Embedding of `instances.all()`: `fetched` is what the external client
would return, `cache` the class-level `_instances` state (`none` when
the attribute is unset).  Returns the result, the new cache state, and
how many external fetches occurred (0 or 1). -/
def all (fetched : List Reservation) (cache : Option (List Instance)) :
    List Instance × Option (List Instance) × Nat :=
  match cache with
  | some l => (l, some l, 0)
  | none =>
    let l := fetched.flatMap (fun r => r.instances)
    (l, some l, 1)

/-- Embedding of `instances.filter(**kwargs)`: call `all`, then run the
per-criterion filter loop over the result. -/
def filter (fetched : List Reservation) (cache : Option (List Instance))
    (criteria : List (String × String)) :
    Except Ec2Error (List Instance) × Option (List Instance) × Nat :=
  match all fetched cache with
  | (l, cache2, n) => (filterLoop criteria l, cache2, n)

/-- Embedding of `instances.clear()`: `del cls._instances`, swallowing
the `AttributeError` when nothing is cached. -/
def clear (_cache : Option (List Instance)) : Option (List Instance) := none

end instances

/-- Declarative semantics of the regex elements: `Matches nc ps s` holds
when the element list `ps` matches exactly the character list `s`. -/
inductive Matches (nc : Bool) : List Elem → List Char → Prop where
  | nil : Matches nc [] []
  | one {t ps c s} (hc : tokMatch nc t c = true) (h : Matches nc ps s) :
      Matches nc (Elem.one t :: ps) (c :: s)
  | starNil {t ps s} (h : Matches nc ps s) : Matches nc (Elem.star t :: ps) s
  | starCons {t ps c s} (hc : tokMatch nc t c = true)
      (h : Matches nc (Elem.star t :: ps) s) : Matches nc (Elem.star t :: ps) (c :: s)

/-- Sample instance with both a real attribute `name` and a tag `Name`. -/
def demoBoth : Instance := ⟨[("name", "web")], [("Name", "tagval")]⟩

/-- The spec's worked example: attribute `state = "running"` and tag
`Name = "production-web-1"`. -/
def demoTag : Instance := ⟨[("state", "running")], [("Name", "production-web-1")]⟩

/-- Sample instance with neither a `name` attribute nor a matching tag. -/
def demoNone : Instance := ⟨[], [("Other", "y")]⟩

/-- Sample instance whose only tag key is capitalized. -/
def demoUpperTag : Instance := ⟨[], [("Name", "prod")]⟩

/-- Sample instance with an upper-case tag value and no attributes. -/
def demoShout : Instance := ⟨[], [("Name", "PROD")]⟩

/-- Sample instance with an upper-case attribute value. -/
def demoRunning : Instance := ⟨[("state", "RUNNING")], []⟩

/-- Unfolding lemma for `matchHere` on a starred head, for any string. -/
theorem matchHere_star (nc : Bool) (t : Tok) (ps : List Elem) (s : List Char) :
    matchHere nc (Elem.star t :: ps) s =
      (matchHere nc ps s ||
        (match s with
         | [] => false
         | c :: s2 => tokMatch nc t c && matchHere nc (Elem.star t :: ps) s2)) := by
  cases s <;> simp [matchHere]

/-- If the elements match `s1` exactly, the anchored matcher succeeds on
`s1 ++ s2` for any continuation `s2`. -/
theorem matchHere_of_matches {nc : Bool} {ps : List Elem} {s1 : List Char}
    (h : Matches nc ps s1) : ∀ s2, matchHere nc ps (s1 ++ s2) = true := by
  induction h with
  | nil => intro s2; simp [matchHere]
  | one hc _ ih => intro s2; simp [matchHere, hc, ih s2]
  | starNil _ ih => intro s2; rw [matchHere_star]; simp [ih s2]
  | starCons hc _ ih => intro s2; rw [matchHere_star]; simp [hc, ih s2]

/-- Bounded soundness of the anchored matcher: a successful match
consumes a prefix that the declarative semantics accepts. -/
theorem matchHere_sound_aux (nc : Bool) :
    ∀ n ps s, s.length + ps.length ≤ n → matchHere nc ps s = true →
      ∃ s1 s2, s = s1 ++ s2 ∧ Matches nc ps s1 := by
  intro n
  induction n with
  | zero =>
    intro ps s hlen h
    match ps, s with
    | [], s => exact ⟨[], s, rfl, Matches.nil⟩
    | p :: ps, s => simp at hlen
  | succ n ih =>
    intro ps s hlen h
    match ps, s with
    | [], s => exact ⟨[], s, rfl, Matches.nil⟩
    | Elem.one t :: ps, [] => simp [matchHere] at h
    | Elem.one t :: ps, c :: s =>
      rw [matchHere, Bool.and_eq_true] at h
      obtain ⟨hc, hm⟩ := h
      obtain ⟨s1, s2, heq, hm2⟩ := ih ps s (by simp at hlen; omega) hm
      exact ⟨c :: s1, s2, by rw [heq]; rfl, Matches.one hc hm2⟩
    | Elem.star t :: ps, s =>
      rw [matchHere_star, Bool.or_eq_true] at h
      rcases h with h1 | h2
      · obtain ⟨s1, s2, heq, hm2⟩ := ih ps s (by simp at hlen ⊢; omega) h1
        exact ⟨s1, s2, heq, Matches.starNil hm2⟩
      · match s, h2 with
        | c :: s, h2 =>
          rw [Bool.and_eq_true] at h2
          obtain ⟨hc, hm⟩ := h2
          obtain ⟨s1, s2, heq, hm2⟩ :=
            ih (Elem.star t :: ps) s (by simp at hlen ⊢; omega) hm
          exact ⟨c :: s1, s2, by rw [heq]; rfl, Matches.starCons hc hm2⟩

/-- The anchored matcher succeeds exactly when the pattern matches some
prefix of the input, starting at position 0. -/
theorem matchHere_iff (nc : Bool) (ps : List Elem) (s : List Char) :
    matchHere nc ps s = true ↔ ∃ s1 s2, s = s1 ++ s2 ∧ Matches nc ps s1 := by
  constructor
  · exact matchHere_sound_aux nc (s.length + ps.length) ps s (Nat.le_refl _)
  · rintro ⟨s1, s2, rfl, hm⟩
    exact matchHere_of_matches hm s2

/-- The attribute lookup only reads the `attrs` field. -/
theorem getattr_tags_irrel (attrsl tags1 tags2 : List (String × String)) (k : String) :
    getattr ⟨attrsl, tags1⟩ k = getattr ⟨attrsl, tags2⟩ k := rfl

/-- When the direct attribute exists, a two-tier comparator never looks
at the tags. -/
theorem twoTier_tags_irrel (dir tagf : String → Bool) (k : String) (i : Instance)
    (h : (getattr i k).isSome) (tags2 : List (String × String)) :
    twoTier dir tagf k ⟨i.attrs, tags2⟩ = twoTier dir tagf k i := by
  obtain ⟨a, ha⟩ := Option.isSome_iff_exists.mp h
  have ha2 : getattr ⟨i.attrs, tags2⟩ k = some a := ha
  simp [twoTier, ha, ha2]

/-- When the direct attribute exists, a two-tier comparator answers with
the direct function on the attribute value. -/
theorem twoTier_direct (dir tagf : String → Bool) (k : String) (i : Instance)
    (a : String) (ha : getattr i k = some a) :
    twoTier dir tagf k i = .ok (dir a) := by
  simp [twoTier, ha]

/-- When the attribute is missing but a tag key matches, a two-tier
comparator answers with the tag function on the tag value. -/
theorem twoTier_tag (dir tagf : String → Bool) (k : String) (i : Instance)
    (w : String) (ha : getattr i k = none) (hw : findTag k i.tags = some w) :
    twoTier dir tagf k i = .ok (tagf w) := by
  simp [twoTier, ha, hw]

/-- When neither the attribute nor a matching tag exists, a two-tier
comparator fails with `AttributeNotFoundError`. -/
theorem twoTier_notfound (dir tagf : String → Bool) (k : String) (i : Instance)
    (ha : getattr i k = none) (hw : findTag k i.tags = none) :
    twoTier dir tagf k i = .error (.AttributeNotFoundError k i) := by
  simp [twoTier, ha, hw]

/-- `Char.ofNat` inverts `toNat` on valid codepoints. -/
theorem char_toNat_ofNat {n : Nat} (h : n.isValidChar) : (Char.ofNat n).toNat = n := by
  rw [Char.ofNat, dif_pos h]
  rfl

/-- The output of `Char.toLower` is never an upper-case ASCII letter. -/
theorem toLower_not_upper (c : Char) :
    ¬(65 ≤ (Char.toLower c).toNat ∧ (Char.toLower c).toNat ≤ 90) := by
  simp only [Char.toLower]
  split
  · next h =>
    rw [char_toNat_ofNat (Or.inl (by omega))]
    omega
  · next h =>
    omega

/-- A key containing an upper-case ASCII letter never equals a
lower-cased tag key, so the tag-fallback search finds nothing. -/
theorem findTag_upper_none (k : String) (c : Char) (hc : c ∈ k.data)
    (h1 : 65 ≤ c.toNat) (h2 : c.toNat ≤ 90) (tags : List (String × String)) :
    findTag k tags = none := by
  have hne : ∀ t : String × String, (k == strLower t.1) = false := by
    intro t
    rw [beq_eq_false_iff_ne]
    intro hEq
    have hdata : k.data = (t.1.data.map Char.toLower) := congrArg String.data hEq
    rw [hdata] at hc
    obtain ⟨d, _, hd⟩ := List.mem_map.mp hc
    exact toLower_not_upper d ⟨by rw [hd]; exact h1, by rw [hd]; exact h2⟩
  unfold findTag
  rw [List.find?_eq_none.mpr (fun t _ => by simp [hne t])]
  rfl

/-- `rsplit2` success means the input splits at a double underscore. -/
theorem rsplit2_some_eq :
    ∀ (l a b : List Char), rsplit2 l = some (a, b) → l = a ++ '_' :: '_' :: b := by
  intro l
  induction l with
  | nil => intro a b h; simp [rsplit2] at h
  | cons c rest ih =>
    intro a b h
    rw [rsplit2] at h
    cases hr : rsplit2 rest with
    | some p =>
      obtain ⟨p1, p2⟩ := p
      rw [hr] at h
      simp at h
      obtain ⟨ha, hb⟩ := h
      subst ha
      subst hb
      simp [ih p1 p2 hr]
    | none =>
      rw [hr] at h
      by_cases hcond : c = '_' ∧ rest.head? = some '_'
      · rw [if_pos hcond] at h
        obtain ⟨hc, hh⟩ := hcond
        subst hc
        simp at h
        obtain ⟨ha, hb⟩ := h
        subst ha
        cases rest with
        | nil => simp at hh
        | cons r rest2 =>
          simp at hh
          subst hh
          simp at hb
          subst hb
          rfl
      · rw [if_neg hcond] at h
        simp at h

/-- `rsplit2` fails exactly when no double underscore occurs. -/
theorem rsplit2_none_iff :
    ∀ l : List Char, rsplit2 l = none ↔ ∀ a b : List Char, l ≠ a ++ '_' :: '_' :: b := by
  intro l
  induction l with
  | nil =>
    constructor
    · intro _ a b h
      cases a <;> simp at h
    · intro _
      rfl
  | cons c rest ih =>
    constructor
    · intro h a b habs
      rw [rsplit2] at h
      cases hr : rsplit2 rest with
      | some p =>
        obtain ⟨p1, p2⟩ := p
        rw [hr] at h
        simp at h
      | none =>
        rw [hr] at h
        cases a with
        | nil =>
          simp at habs
          obtain ⟨hc, hh⟩ := habs
          subst hc
          rw [if_pos ⟨rfl, by rw [hh]; rfl⟩] at h
          simp at h
        | cons a0 a2 =>
          simp at habs
          obtain ⟨hc, hh⟩ := habs
          exact (ih.mp hr) a2 b hh
    · intro h
      have hrestnone : rsplit2 rest = none := by
        cases hr : rsplit2 rest with
        | none => rfl
        | some p =>
          obtain ⟨p1, p2⟩ := p
          have hrest := rsplit2_some_eq rest p1 p2 hr
          exact absurd (by rw [hrest]; rfl) (h (c :: p1) p2)
      have hcondneg : ¬(c = '_' ∧ rest.head? = some '_') := by
        rintro ⟨rfl, hh⟩
        cases rest with
        | nil => simp at hh
        | cons r rest2 =>
          simp at hh
          subst hh
          exact h [] rest2 rfl
      simp [rsplit2, hrestnone, hcondneg]

/-- The split returned by `rsplit2` is at the last double underscore:
any other split point lies weakly to its left. -/
theorem rsplit2_some_last :
    ∀ (l a b : List Char), rsplit2 l = some (a, b) →
      ∀ a2 b2 : List Char, l = a2 ++ '_' :: '_' :: b2 → a2.length ≤ a.length := by
  intro l
  induction l with
  | nil => intro a b h; simp [rsplit2] at h
  | cons c rest ih =>
    intro a b h a2 b2 heq
    rw [rsplit2] at h
    cases hr : rsplit2 rest with
    | some p =>
      obtain ⟨p1, p2⟩ := p
      rw [hr] at h
      simp at h
      obtain ⟨ha, hb⟩ := h
      subst ha
      cases a2 with
      | nil => simp
      | cons a0 a3 =>
        simp at heq
        obtain ⟨hc, hh⟩ := heq
        have hlen := ih p1 p2 hr a3 b2 hh
        simp only [List.length_cons]
        omega
    | none =>
      rw [hr] at h
      by_cases hcond : c = '_' ∧ rest.head? = some '_'
      · rw [if_pos hcond] at h
        simp at h
        obtain ⟨ha, hb⟩ := h
        subst ha
        cases a2 with
        | nil => simp
        | cons a0 a3 =>
          simp at heq
          obtain ⟨hc, hh⟩ := heq
          exact absurd hh ((rsplit2_none_iff rest).mp hr a3 b2)
      · rw [if_neg hcond] at h
        simp at h

/-- Unfolding of `Except` bind on a success value. -/
theorem bind_ok_eq {ε α β : Type} (a : α) (f : α → Except ε β) :
    (Except.ok a : Except ε α) >>= f = f a := rfl

/-- Unfolding of `Except` bind on an error value. -/
theorem bind_error_eq {ε α β : Type} (e : ε) (f : α → Except ε β) :
    (Except.error e : Except ε α) >>= f = Except.error e := rfl

/-- `pure` for `Except` is `ok`. -/
theorem pure_eq_ok {ε α : Type} (a : α) : (pure a : Except ε α) = Except.ok a := rfl

/-- When every predicate evaluation on the list succeeds, the embedded
Python `filter` returns exactly the elements whose predicate is true, in
order. -/
theorem pyFilter_ok (k v : String) (l : List Instance)
    (h : ∀ i ∈ l, ∃ b, _comp k v i = Except.ok b) :
    pyFilter k v l = Except.ok (l.filter (fun i => predHolds k v i)) := by
  induction l with
  | nil => rfl
  | cons i rest ih =>
    obtain ⟨b, hb⟩ := h i (by simp)
    have hrest := ih (fun j hj => h j (by simp [hj]))
    have hp : predHolds k v i = b := by simp [predHolds, hb]
    rw [pyFilter, hb, bind_ok_eq, hrest, bind_ok_eq, List.filter_cons, hp]
    cases b <;> simp [pure_eq_ok]

/-- Every success of the embedded Python `filter` is a sublist of its
input. -/
theorem pyFilter_sublist (k v : String) :
    ∀ (l r : List Instance), pyFilter k v l = Except.ok r → r.Sublist l := by
  intro l
  induction l with
  | nil =>
    intro r h
    rw [pyFilter] at h
    injection h with h
    rw [← h]
  | cons i rest ih =>
    intro r h
    rw [pyFilter] at h
    cases hc : _comp k v i with
    | error e => rw [hc, bind_error_eq] at h; exact absurd h (by simp)
    | ok b =>
      rw [hc, bind_ok_eq] at h
      cases hr : pyFilter k v rest with
      | error e => rw [hr, bind_error_eq] at h; exact absurd h (by simp)
      | ok r2 =>
        rw [hr, bind_ok_eq, pure_eq_ok] at h
        injection h with h
        rw [← h]
        cases b with
        | true => exact List.Sublist.cons₂ i (ih r2 hr)
        | false => exact List.Sublist.cons i (ih r2 hr)

/-- When every criterion's predicate succeeds on every cached instance,
the filter loop computes the conjunction filter. -/
theorem filterLoop_ok (criteria : List (String × String)) (l : List Instance)
    (h : ∀ c ∈ criteria, ∀ i ∈ l, ∃ b, _comp c.1 c.2 i = Except.ok b) :
    filterLoop criteria l =
      Except.ok (l.filter (fun i => criteria.all (fun c => predHolds c.1 c.2 i))) := by
  induction criteria generalizing l with
  | nil => simp [filterLoop]
  | cons c cs ih =>
    obtain ⟨k, v⟩ := c
    have h1 : ∀ i ∈ l, ∃ b, _comp k v i = Except.ok b :=
      fun i hi => h (k, v) (by simp) i hi
    have h2 : ∀ c2 ∈ cs, ∀ i ∈ l.filter (fun i => predHolds k v i),
        ∃ b, _comp c2.1 c2.2 i = Except.ok b :=
      fun c2 hc2 i hi => h c2 (by simp [hc2]) i (List.mem_of_mem_filter hi)
    rw [filterLoop, pyFilter_ok k v l h1, bind_ok_eq, ih _ h2, List.filter_filter]
    exact congrArg Except.ok
      (List.filter_congr (fun a _ => by simp [List.all_cons, Bool.and_comm]))

/-- Every success of the filter loop is a sublist of the input list. -/
theorem filterLoop_sublist (criteria : List (String × String)) :
    ∀ (l r : List Instance), filterLoop criteria l = Except.ok r → r.Sublist l := by
  induction criteria with
  | nil =>
    intro l r h
    rw [filterLoop] at h
    injection h with h
    rw [← h]
  | cons c cs ih =>
    obtain ⟨k, v⟩ := c
    intro l r h
    rw [filterLoop] at h
    cases hp : pyFilter k v l with
    | error e => rw [hp, bind_error_eq] at h; exact absurd h (by simp)
    | ok l2 =>
      rw [hp, bind_ok_eq] at h
      exact List.Sublist.trans (ih l2 r h) (pyFilter_sublist k v l l2 hp)

/-- Every recognized comparator is an instantiation of the two-tier
lookup skeleton, with value-dependent direct and tag tests. -/
theorem comparator_shape (comp : String)
    (f : String → String → Instance → Except Ec2Error Bool)
    (hf : _Compare.lookup comp = some f) :
    ∃ dir tagf : String → String → Bool,
      ∀ k v i, f k v i = twoTier (dir v) (tagf v) k i := by
  unfold _Compare.lookup at hf
  split at hf
  · injection hf with hf; subst hf
    exact ⟨fun v a => a == v, fun v w => w == v, fun _ _ _ => rfl⟩
  · injection hf with hf; subst hf
    exact ⟨fun v a => strLower a == strLower v, fun v w => strLower w == strLower v,
      fun _ _ _ => rfl⟩
  · injection hf with hf; subst hf
    exact ⟨fun v a => reMatch (reCompile v) a, fun v w => reMatch (reCompile v) w,
      fun _ _ _ => rfl⟩
  · injection hf with hf; subst hf
    exact ⟨fun v a => reMatch (reCompile v) a, fun v w => reMatch (reCompile v) w,
      fun _ _ _ => rfl⟩
  · injection hf with hf; subst hf
    exact ⟨fun v a => reMatch (reCompileI v) a, fun v w => reMatch (reCompileI v) w,
      fun _ _ _ => rfl⟩
  · injection hf with hf; subst hf
    exact ⟨fun v a => reMatch (reCompileI v) a, fun v w => reMatch (reCompileI v) w,
      fun _ _ _ => rfl⟩
  · injection hf with hf; subst hf
    exact ⟨fun v a => strIn v a, fun v w => strIn v w, fun _ _ _ => rfl⟩
  · injection hf with hf; subst hf
    exact ⟨fun v a => strIn (strLower v) (strLower a), fun v w => strIn (strLower v) w,
      fun _ _ _ => rfl⟩
  · injection hf with hf; subst hf
    exact ⟨fun v a => strStarts a v, fun v w => strStarts w v, fun _ _ _ => rfl⟩
  · injection hf with hf; subst hf
    exact ⟨fun v a => strStarts a (strLower v), fun v w => strStarts (strLower w) (strLower v),
      fun _ _ _ => rfl⟩
  · injection hf with hf; subst hf
    exact ⟨fun v a => strEnds a v, fun v w => strEnds w v, fun _ _ _ => rfl⟩
  · injection hf with hf; subst hf
    exact ⟨fun v a => strEnds a (strLower v), fun v w => strEnds (strLower w) (strLower v),
      fun _ _ _ => rfl⟩
  · exact absurd hf (by simp)

/-- C1: over a populated cache, `filter` returns exactly the in-order
subsequence of the cached instances on which every criterion's predicate
evaluates true (logical AND across criteria, assuming every predicate
evaluation succeeds), and `filter` with no criteria returns the cached
sequence unchanged. -/
theorem C1_filter_and_semantics (fetched : List Reservation) (l : List Instance)
    (criteria : List (String × String))
    (hok : ∀ c ∈ criteria, ∀ i ∈ l, ∃ b, _comp c.1 c.2 i = Except.ok b) :
    (instances.filter fetched (some l) criteria).1 =
      Except.ok (l.filter (fun i => criteria.all (fun c => predHolds c.1 c.2 i))) ∧
    (instances.filter fetched (some l) []).1 = Except.ok l := by
  constructor
  · exact filterLoop_ok criteria l hok
  · rfl

/-- C1 witness: on a concrete two-element cache, `filter(state="running")`
keeps exactly the matching instance and `filter({})` returns the cache. -/
theorem C1_filter_and_semantics_witness :
    (instances.filter [] (some [demoTag, demoRunning]) [("state", "running")]).1 =
      Except.ok [demoTag] ∧
    (instances.filter [] (some [demoTag, demoRunning]) []).1 =
      Except.ok [demoTag, demoRunning] := by
  have h := C1_filter_and_semantics [] [demoTag, demoRunning] [("state", "running")]
    (by
      rintro c hc i hi
      simp at hc
      subst hc
      simp at hi
      rcases hi with rfl | rfl
      · exact ⟨true, rfl⟩
      · exact ⟨false, rfl⟩)
  exact ⟨h.1.trans rfl, h.2⟩

/-- C2: for every recognized comparator, the predicate reads the direct
attribute first (when it exists, the tags are irrelevant); only on a
failed attribute lookup does it fall back to the first tag whose
lower-cased key equals the attribute name; when neither exists it fails
with `AttributeNotFoundError` naming the attribute and instance rather
than treating the criterion as a non-match. -/
theorem C2_lookup_order (comp k v : String)
    (f : String → String → Instance → Except Ec2Error Bool)
    (hf : _Compare.lookup comp = some f) (i : Instance) :
    ((getattr i k).isSome → ∀ tags2, f k v ⟨i.attrs, tags2⟩ = f k v i) ∧
    (getattr i k = none → ∀ w, findTag k i.tags = some w →
      ∃ b, f k v i = Except.ok b) ∧
    (getattr i k = none → findTag k i.tags = none →
      f k v i = Except.error (Ec2Error.AttributeNotFoundError k i)) := by
  obtain ⟨dir, tagf, hshape⟩ := comparator_shape comp f hf
  refine ⟨?_, ?_, ?_⟩
  · intro h tags2
    rw [hshape, hshape]
    exact twoTier_tags_irrel (dir v) (tagf v) k i h tags2
  · intro ha w hw
    rw [hshape]
    exact ⟨tagf v w, twoTier_tag _ _ _ _ _ ha hw⟩
  · intro ha hw
    rw [hshape]
    exact twoTier_notfound _ _ _ _ ha hw

/-- C2 witness: with both a real attribute `name` and a tag `Name`, the
`exact` comparator ignores the tags; with neither, it raises. -/
theorem C2_lookup_order_witness :
    _Compare.exact "name" "web" ⟨demoBoth.attrs, []⟩ = _Compare.exact "name" "web" demoBoth ∧
    _Compare.exact "nonexistent_field" "x" demoNone =
      Except.error (Ec2Error.AttributeNotFoundError "nonexistent_field" demoNone) := by
  have h1 := C2_lookup_order "exact" "name" "web" _Compare.exact rfl demoBoth
  have h2 := C2_lookup_order "exact" "nonexistent_field" "x" _Compare.exact rfl demoNone
  exact ⟨h1.1 (by rfl) [], h2.2.2 rfl rfl⟩

/-- C3 counterexample: with an empty cached instance list, a criterion
with the unrecognized comparator `bogus` does not raise; `filter` returns
an empty result, contradicting the claim that the error is surfaced
regardless of the cached instance list. -/
theorem C3_cex_empty_cache_no_error :
    _Compare.lookup "bogus" = none ∧
    parseKey "state__bogus" = ("state", "bogus") ∧
    (instances.filter [] none [("state__bogus", "x")]).1 = Except.ok [] := by
  exact ⟨rfl, rfl, rfl⟩

/-- C3 (amended): a criterion whose parsed comparator is unrecognized
makes `filter` fail with `UnknownComparatorError` naming it, provided the
cached instance list the criterion is applied to is non-empty (the
comparator is only validated inside the per-instance predicate). -/
theorem C3_unknown_comparator_raises (key v a c : String) (l : List Instance)
    (fetched : List Reservation) (hp : parseKey key = (a, c))
    (hc : _Compare.lookup c = none) (hl : l ≠ []) :
    (instances.filter fetched (some l) [(key, v)]).1 =
      Except.error (Ec2Error.UnknownComparatorError c) := by
  cases l with
  | nil => exact absurd rfl hl
  | cons i rest =>
    have hcomp : _comp key v i = Except.error (Ec2Error.UnknownComparatorError c) := by
      unfold _comp
      rw [hp]
      simp [hc]
    show filterLoop [(key, v)] (i :: rest) = _
    rw [filterLoop, pyFilter, hcomp, bind_error_eq, bind_error_eq]

/-- C3 witness: `filter(state__bogus="x")` on a non-empty cache raises
`UnknownComparatorError("bogus")`. -/
theorem C3_unknown_comparator_raises_witness :
    (instances.filter [] (some [demoTag]) [("state__bogus", "x")]).1 =
      Except.error (Ec2Error.UnknownComparatorError "bogus") := by
  exact C3_unknown_comparator_raises "state__bogus" "x" "state" "bogus" [demoTag] []
    rfl rfl (by simp)

/-- C4 counterexample: on the tag-fallback path `icontains` is not
case-insensitive: the instance's tag value `PROD` does contain `prod`
case-insensitively, yet the comparator answers false. -/
theorem C4_cex_tag_path_case_sensitive :
    getattr demoShout "name" = none ∧
    findTag "name" demoShout.tags = some "PROD" ∧
    strIn (strLower "prod") (strLower "PROD") = true ∧
    _Compare.icontains "name" "prod" demoShout = Except.ok false := by
  refine ⟨rfl, rfl, by decide, rfl⟩

/-- C4 (amended): `icontains` lower-cases both sides only on the
direct-attribute path; on the tag-fallback path it lower-cases the
expected value but tests it against the raw tag value. -/
theorem C4_icontains_paths (k v : String) (i : Instance) :
    (∀ a, getattr i k = some a →
      (_Compare.icontains k v i = Except.ok true ↔
        (strLower v).data <:+: (strLower a).data)) ∧
    (∀ w, getattr i k = none → findTag k i.tags = some w →
      (_Compare.icontains k v i = Except.ok true ↔
        (strLower v).data <:+: w.data)) := by
  constructor
  · intro a ha
    rw [show _Compare.icontains k v i = Except.ok (strIn (strLower v) (strLower a)) from
      twoTier_direct _ _ k i a ha]
    simp [strIn]
  · intro w ha hw
    rw [show _Compare.icontains k v i = Except.ok (strIn (strLower v) w) from
      twoTier_tag _ _ k i w ha hw]
    simp [strIn]

/-- C4 witness: the amended characterization applied to a direct
attribute and to a tag-only instance. -/
theorem C4_icontains_paths_witness :
    (_Compare.icontains "state" "RUN" demoRunning = Except.ok true ↔
      (strLower "RUN").data <:+: (strLower "RUNNING").data) ∧
    (_Compare.icontains "name" "prod" demoShout = Except.ok true ↔
      (strLower "prod").data <:+: ("PROD" : String).data) := by
  exact ⟨(C4_icontains_paths "state" "RUN" demoRunning).1 "RUNNING" rfl,
    (C4_icontains_paths "name" "prod" demoShout).2 "PROD" rfl rfl⟩

/-- C5 counterexample: on the direct-attribute path `istartswith` and
`iendswith` are not case-insensitive: attribute value `RUNNING` starts
with `Run` and ends with `Ning` case-insensitively, yet both answer
false. -/
theorem C5_cex_direct_path_case_sensitive :
    getattr demoRunning "state" = some "RUNNING" ∧
    strStarts (strLower "RUNNING") (strLower "Run") = true ∧
    _Compare.istartswith "state" "Run" demoRunning = Except.ok false ∧
    strEnds (strLower "RUNNING") (strLower "Ning") = true ∧
    _Compare.iendswith "state" "Ning" demoRunning = Except.ok false := by
  refine ⟨rfl, by decide, rfl, by decide, rfl⟩

/-- C5 (amended): `istartswith` and `iendswith` lower-case only the
expected value on the direct-attribute path (the attribute value is
compared verbatim); only on the tag-fallback path are both sides
lower-cased, giving a genuinely case-insensitive comparison. -/
theorem C5_istarts_iends_paths (k v : String) (i : Instance) :
    (∀ a, getattr i k = some a →
      _Compare.istartswith k v i = Except.ok (strStarts a (strLower v)) ∧
      _Compare.iendswith k v i = Except.ok (strEnds a (strLower v))) ∧
    (∀ w, getattr i k = none → findTag k i.tags = some w →
      (_Compare.istartswith k v i = Except.ok true ↔
        (strLower v).data <+: (strLower w).data) ∧
      (_Compare.iendswith k v i = Except.ok true ↔
        (strLower v).data <:+ (strLower w).data)) := by
  constructor
  · intro a ha
    exact ⟨twoTier_direct _ _ k i a ha, twoTier_direct _ _ k i a ha⟩
  · intro w ha hw
    constructor
    · rw [show _Compare.istartswith k v i =
          Except.ok (strStarts (strLower w) (strLower v)) from
        twoTier_tag _ _ k i w ha hw]
      simp [strStarts]
    · rw [show _Compare.iendswith k v i =
          Except.ok (strEnds (strLower w) (strLower v)) from
        twoTier_tag _ _ k i w ha hw]
      simp [strEnds]

/-- C5 witness: the amended characterization applied to a direct
attribute and to the spec's tag-fallback example. -/
theorem C5_istarts_iends_paths_witness :
    _Compare.istartswith "state" "Run" demoRunning =
      Except.ok (strStarts "RUNNING" (strLower "Run")) ∧
    (_Compare.istartswith "name" "PRODUCTION" demoTag = Except.ok true ↔
      (strLower "PRODUCTION").data <+: (strLower "production-web-1").data) := by
  exact ⟨((C5_istarts_iends_paths "state" "Run" demoRunning).1 "RUNNING" rfl).1,
    ((C5_istarts_iends_paths "name" "PRODUCTION" demoTag).2 "production-web-1" rfl rfl).1⟩

/-- C6: field-spec parsing splits on the last occurrence of the double
underscore (the split it returns is a valid decomposition, and any other
decomposition's attribute part is no longer); when no double underscore
occurs, the whole key is the attribute and the comparator defaults to
`exact`. -/
theorem C6_parse_last_sep (key : String) :
    ((∃ a b : String, key = a ++ "__" ++ b) →
      key = (parseKey key).1 ++ "__" ++ (parseKey key).2 ∧
      ∀ a b : String, key = a ++ "__" ++ b → a.length ≤ (parseKey key).1.length) ∧
    ((¬ ∃ a b : String, key = a ++ "__" ++ b) → parseKey key = (key, "exact")) := by
  have hth : ("__" : String).data = ['_', '_'] := rfl
  constructor
  · rintro ⟨a, b, rfl⟩
    have hd : (a ++ "__" ++ b).data = a.data ++ '_' :: '_' :: b.data := by
      simp [hth]
    cases hy : rsplit2 (a ++ "__" ++ b).data with
    | none =>
      exact absurd hd ((rsplit2_none_iff _).mp hy a.data b.data)
    | some p =>
      obtain ⟨p1, p2⟩ := p
      have heq := rsplit2_some_eq _ p1 p2 hy
      have hparse : parseKey (a ++ "__" ++ b) = (⟨p1⟩, ⟨p2⟩) := by
        unfold parseKey
        rw [hy]
      constructor
      · rw [hparse]
        apply String.ext
        rw [heq]
        simp [hth]
      · intro a2 b2 h2
        rw [hparse]
        have h2d : (a ++ "__" ++ b).data = a2.data ++ '_' :: '_' :: b2.data := by
          rw [h2]
          simp [hth]
        exact rsplit2_some_last _ p1 p2 hy a2.data b2.data h2d
  · intro hno
    cases hy : rsplit2 key.data with
    | none =>
      unfold parseKey
      rw [hy]
    | some p =>
      obtain ⟨p1, p2⟩ := p
      have heq := rsplit2_some_eq _ p1 p2 hy
      have hk : key = (⟨p1⟩ : String) ++ "__" ++ (⟨p2⟩ : String) := by
        apply String.ext
        rw [heq]
        simp [hth]
      exact absurd ⟨⟨p1⟩, ⟨p2⟩, hk⟩ hno

/-- C6 witness: `a__b__c` splits at its last double underscore into
`a__b` and `c`. -/
theorem C6_parse_last_sep_witness :
    ("a__b__c" : String) = (parseKey "a__b__c").1 ++ "__" ++ (parseKey "a__b__c").2 ∧
    parseKey "a__b__c" = ("a__b", "c") := by
  have h := (C6_parse_last_sep "a__b__c").1 ⟨"a", "b__c", by decide⟩
  exact ⟨h.1, by decide⟩

/-- C7: `like` compiles a string argument as a regex and uses a pattern
argument as-is; `regex` is the same function; `ilike` is `like` with the
pattern compiled case-insensitively and `iregex` is `ilike`; on a
successful attribute (or tag-fallback) lookup the result is the anchored
match of the pattern against the looked-up value, which succeeds exactly
when the pattern matches a prefix of that value starting at position 0. -/
theorem C7_like_regex_semantics (k s v : String) (p : Pattern) (i : Instance)
    (a : String) (ha : getattr i k = some a) :
    _Compare.like k (ReArg.str s) i = _Compare.like k (ReArg.pat (reCompile s)) i ∧
    _Compare.regex = _Compare.like ∧
    _Compare.ilike k v i = _Compare.like k (ReArg.pat (reCompileI v)) i ∧
    _Compare.iregex = _Compare.ilike ∧
    _Compare.like k (ReArg.pat p) i = Except.ok (reMatch p a) ∧
    (∀ j w, getattr j k = none → findTag k j.tags = some w →
      _Compare.like k (ReArg.pat p) j = Except.ok (reMatch p w)) ∧
    (reMatch p a = true ↔
      ∃ s1 s2, a.data = s1 ++ s2 ∧ Matches p.nocase p.elems s1) := by
  refine ⟨rfl, rfl, rfl, rfl, ?_, ?_, ?_⟩
  · exact twoTier_direct _ _ k i a ha
  · intro j w hj hw
    exact twoTier_tag _ _ k j w hj hw
  · exact matchHere_iff p.nocase p.elems a.data

/-- C7 witness: instantiation at the spec's example instance and the
pattern `^RUN.*` compiled case-insensitively. -/
theorem C7_like_regex_semantics_witness :
    getattr demoTag "state" = some "running" ∧
    (reMatch (reCompileI "^RUN.*") "running" = true ↔
      ∃ s1 s2, ("running" : String).data = s1 ++ s2 ∧
        Matches (reCompileI "^RUN.*").nocase (reCompileI "^RUN.*").elems s1) := by
  exact ⟨rfl, (C7_like_regex_semantics "state" "^x" "^y" (reCompileI "^RUN.*") demoTag
    "running" rfl).2.2.2.2.2.2⟩

/-- C8: the first `all()` (cache empty) fetches exactly once, flattens
the reservations, and stores the result; `all()` on a populated cache
returns the identical stored sequence with no fetch; a repeated `all()`
returns the same sequence with zero fetches; `clear` discards the cache,
never errors, and is idempotent. -/
theorem C8_cache_memoization (fetched : List Reservation) (cache : Option (List Instance)) :
    (instances.all fetched none).1 = fetched.flatMap (fun r => r.instances) ∧
    (instances.all fetched none).2 =
      (some (fetched.flatMap (fun r => r.instances)), 1) ∧
    (∀ l, instances.all fetched (some l) = (l, some l, 0)) ∧
    (instances.all fetched ((instances.all fetched cache).2.1)).1 =
      (instances.all fetched cache).1 ∧
    (instances.all fetched ((instances.all fetched cache).2.1)).2.2 = 0 ∧
    instances.clear cache = none ∧
    instances.clear (instances.clear cache) = instances.clear cache := by
  refine ⟨rfl, rfl, fun l => rfl, ?_, ?_, rfl, rfl⟩
  · cases cache <;> rfl
  · cases cache <;> rfl

/-- C9: evaluating `filter` leaves a populated cache unchanged whether it
returns or raises; its only state effect is that of `all`; and any
returned list is an in-order sublist of the cached instances (no record
is altered or introduced). -/
theorem C9_filter_pure (fetched : List Reservation) (criteria : List (String × String)) :
    (∀ l, (instances.filter fetched (some l) criteria).2.1 = some l) ∧
    (∀ cache, (instances.filter fetched cache criteria).2 =
      (instances.all fetched cache).2) ∧
    (∀ l r, filterLoop criteria l = Except.ok r → r.Sublist l) := by
  refine ⟨fun l => rfl, fun cache => ?_, fun l r h => filterLoop_sublist criteria l r h⟩
  cases cache <;> rfl

/-- C9 witness: a concrete filter run leaves the cache intact and returns
a sublist of it. -/
theorem C9_filter_pure_witness :
    (instances.filter [] (some [demoTag]) [("state", "running")]).2.1 = some [demoTag] ∧
    List.Sublist [demoTag] [demoTag] := by
  have h := C9_filter_pure [] [("state", "running")]
  exact ⟨h.1 [demoTag], h.2.2 [demoTag] [demoTag] rfl⟩

/-- C10: the tag-fallback search compares the attribute name verbatim
against each lower-cased tag key; hence a key containing an upper-case
ASCII letter can never match a tag, and if it is also not a direct
attribute, every recognized comparator raises `AttributeNotFoundError`. -/
theorem C10_tag_search_verbatim (comp k v : String)
    (f : String → String → Instance → Except Ec2Error Bool)
    (hf : _Compare.lookup comp = some f) (c : Char) (hc : c ∈ k.data)
    (h1 : 65 ≤ c.toNat) (h2 : c.toNat ≤ 90) (i : Instance)
    (ha : getattr i k = none) :
    findTag k i.tags = (i.tags.find? (fun t => k == strLower t.1)).map (fun t => t.2) ∧
    f k v i = Except.error (Ec2Error.AttributeNotFoundError k i) := by
  obtain ⟨dir, tagf, hshape⟩ := comparator_shape comp f hf
  refine ⟨rfl, ?_⟩
  rw [hshape]
  exact twoTier_notfound _ _ _ _ ha (findTag_upper_none k c hc h1 h2 i.tags)

/-- C10 witness: the key `Name` (capital N) fails on an instance whose
only tag key is `Name`, because the search lower-cases the tag key but
not the criterion key. -/
theorem C10_tag_search_verbatim_witness :
    _Compare.exact "Name" "prod" demoUpperTag =
      Except.error (Ec2Error.AttributeNotFoundError "Name" demoUpperTag) := by
  exact (C10_tag_search_verbatim "exact" "Name" "prod" _Compare.exact rfl 'N'
    (by decide) (by decide) (by decide) demoUpperTag rfl).2

end Ec2
